import Mathlib

/-!
Verification of the dping statistics-aggregation core.

Shallow embedding of the Go sources:
  * internal/statistic store (`PingStatsStore`, `Add`, the sorted / grouped /
    loss-only summary views) — file with `PingStatsStore` and friends;
  * internal/dping.go (`HandleDPing` per-result consumer step, `isRegionExist`,
    the ISP/region parameter validation prologue of `DPing`).

Modelling conventions:
  * Go `time.Duration` (an int64 of nanoseconds) is modelled as `Int`; Go's
    integer division truncates toward zero, which is `Int.tdiv`.  int64
    overflow is not modelled (the quantities involved stay far below 2^63 for
    any realistic ping run).
  * Go `float64` fields (`PacketLoss`) are only ever copied and compared by
    the embedded code, never arithmetically combined, so they are modelled as
    `ℚ` (faithful for every non-NaN float comparison).
  * The Go `map[string]*SummaryStatistic` is modelled as an association list
    with `lookupKey` / `setKey`; Go map iteration order is unspecified, so the
    summary views are parameterised by the flattened snapshot list.
  * `LastUpdated` (`time.Now()`) is a wall-clock timestamp irrelevant to every
    claim and is not modelled.
  * `sort.Slice(data, less)` guarantees only that the output is a permutation
    of the input ordered by the comparator (ties in unspecified order); it is
    modelled by insertion sort over the boolean comparator.
-/

/-- Go `time.Duration`: int64 nanoseconds. -/
abbrev Duration := Int

/-- `time.Hour` in nanoseconds, the sentinel used to initialise `MinRtt`. -/
def hourNs : Duration := 3600000000000

/-- The fields of `ping.Statistics` used by the aggregation core. -/
structure PingStats where
  PacketsSent : Int
  PacketsRecv : Int
  PacketsRecvDuplicates : Int
  PacketLoss : ℚ
  MinRtt : Duration
  MaxRtt : Duration
  AvgRtt : Duration
deriving DecidableEq, Repr

/-- `PingStatistic`: one probe result as posted on the result channel. -/
structure PingStatistic where
  SrcIp : String
  DecIp : String
  Region : String
  Isp : String
  Statistic : PingStats
deriving DecidableEq, Repr

/-- `SummaryStatistic`: the per-destination aggregate record
(`LastUpdated` omitted, see header). -/
structure SummaryStatistic where
  DestIP : String
  Region : String
  Isp : String
  TotalSent : Int
  TotalRecv : Int
  MinRtt : Duration
  MaxRtt : Duration
  AvgRtt : Duration
  MinRttAvg : Duration
  MaxRttAvg : Duration
  PacketLoss : ℚ
  PacketsRecvDuplicates : Int
deriving DecidableEq, Repr

/-- Association-list model of `map[string]*SummaryStatistic` lookup. -/
def lookupKey : List (String × SummaryStatistic) → String → Option SummaryStatistic
  | [], _ => none
  | (k, v) :: rest, key => if k = key then some v else lookupKey rest key

/-- Association-list model of Go map assignment `m[key] = v`. -/
def setKey : List (String × SummaryStatistic) → String → SummaryStatistic → List (String × SummaryStatistic)
  | [], key, v => [(key, v)]
  | (k, w) :: rest, key, v =>
      if k = key then (key, v) :: rest else (k, w) :: setKey rest key v

/-- `PingStatsStore`: the thread-safe store (the mutex is irrelevant to the
sequential semantics of each operation and is not modelled). -/
structure PingStatsStore where
  summaryData : List (String × SummaryStatistic)
  recentStats : List PingStatistic
  maxRecent : Int
deriving DecidableEq, Repr

/-- `NewPingStatsStore`. -/
def NewPingStatsStore (maxRecent : Int) : PingStatsStore :=
  { summaryData := [], recentStats := [], maxRecent := maxRecent }

/-- The record created on first sight of a destination (the `!exists` branch
of `Add`): Go zero values for the counters and averages, `MinRtt`
initialised to `time.Hour`, loss and duplicate counts copied from the first
sample. -/
def freshSummary (stat : PingStatistic) : SummaryStatistic :=
  { DestIP := stat.DecIp
    Region := stat.Region
    Isp := stat.Isp
    TotalSent := 0
    TotalRecv := 0
    MinRtt := hourNs
    MaxRtt := 0
    AvgRtt := 0
    MinRttAvg := 0
    MaxRttAvg := 0
    PacketLoss := stat.Statistic.PacketLoss
    PacketsRecvDuplicates := stat.Statistic.PacketsRecvDuplicates }

/-- The in-place mutation of one aggregate record performed by `Add` after the
record exists.  Note `sum.TotalRecv` is updated before the average formulas
read it, exactly as in the Go code, so the guard `sum.TotalRecv >
statsData.PacketsRecv` compares the new total against the sample weight. -/
def updateSummary (sum : SummaryStatistic) (statsData : PingStats) : SummaryStatistic :=
  let totalSent := sum.TotalSent + statsData.PacketsSent
  let totalRecv := sum.TotalRecv + statsData.PacketsRecv
  let minRtt :=
    if 0 < statsData.MinRtt ∧ statsData.MinRtt < sum.MinRtt then statsData.MinRtt
    else sum.MinRtt
  let minRttAvg :=
    if statsData.PacketsRecv < totalRecv then
      Int.tdiv (sum.MinRttAvg * (totalRecv - statsData.PacketsRecv)
        + statsData.MinRtt * statsData.PacketsRecv) totalRecv
    else statsData.MinRtt
  let maxRtt :=
    if sum.MaxRtt < statsData.MaxRtt then statsData.MaxRtt else sum.MaxRtt
  let maxRttAvg :=
    if statsData.PacketsRecv < totalRecv then
      Int.tdiv (sum.MaxRttAvg * (totalRecv - statsData.PacketsRecv)
        + statsData.MaxRtt * statsData.PacketsRecv) totalRecv
    else statsData.MaxRtt
  let avgRtt :=
    if 0 < totalRecv then
      Int.tdiv (sum.AvgRtt * (totalRecv - statsData.PacketsRecv)
        + statsData.AvgRtt * statsData.PacketsRecv) totalRecv
    else sum.AvgRtt
  { sum with
    TotalSent := totalSent
    TotalRecv := totalRecv
    MinRtt := minRtt
    MinRttAvg := minRttAvg
    MaxRtt := maxRtt
    MaxRttAvg := maxRttAvg
    AvgRtt := avgRtt }

/-- `PingStatsStore.Add`: append to the recent-history FIFO (evicting the
oldest entry on overflow), then create the record for `stat.DecIp` if absent
and apply the aggregate update to it. -/
def PingStatsStore.Add (s : PingStatsStore) (stat : PingStatistic) : PingStatsStore :=
  let recent0 := s.recentStats ++ [stat]
  let recent := if s.maxRecent < (recent0.length : Int) then recent0.tail else recent0
  let key := stat.DecIp
  let base :=
    match lookupKey s.summaryData key with
    | none => freshSummary stat
    | some v => v
  { s with
    recentStats := recent
    summaryData := setKey s.summaryData key (updateSummary base stat.Statistic) }

/-- One iteration of the `HandleDPing` consumer loop on a received result:
results with `PacketLoss == 100` are skipped (the store is untouched), every
result increments the processed-progress counter. -/
def handleStep (st : PingStatsStore × Int) (stats : PingStatistic) : PingStatsStore × Int :=
  let store := if stats.Statistic.PacketLoss ≠ 100 then st.1.Add stats else st.1
  (store, st.2 + 1)

/-- Model of Go `sort.Slice(data, less)`: a permutation of the input ordered
by the boolean comparator (Go leaves the order of comparator-ties
unspecified; insertion sort fixes one such order). -/
def sortSlice {α : Type} (less : α → α → Bool) (l : List α) : List α :=
  List.insertionSort (fun a b => less a b = true) l

/-- The comparator of `GetSummarySorted` (fields `minrtt`, `maxrtt`, `avgrtt`,
default `PacketLoss`), Go `switch` modelled as an if-chain. -/
def summaryFieldLess (field : String) (a b : SummaryStatistic) : Bool :=
  if field = "minrtt" then decide (a.MinRtt < b.MinRtt)
  else if field = "maxrtt" then decide (a.MaxRtt < b.MaxRtt)
  else if field = "avgrtt" then decide (a.AvgRtt < b.AvgRtt)
  else decide (a.PacketLoss < b.PacketLoss)

/-- The non-strict order each `GetSummarySorted` key induces. -/
def summaryFieldLe (field : String) (a b : SummaryStatistic) : Prop :=
  if field = "minrtt" then a.MinRtt ≤ b.MinRtt
  else if field = "maxrtt" then a.MaxRtt ≤ b.MaxRtt
  else if field = "avgrtt" then a.AvgRtt ≤ b.AvgRtt
  else a.PacketLoss ≤ b.PacketLoss

/-- `GetSummarySorted`, parameterised by the flattened snapshot of the
summary map (Go map iteration order is unspecified).  The descending
comparator is the negation of the ascending one, as in the source. -/
def GetSummarySorted (snapshot : List SummaryStatistic) (field : String)
    (descending : Bool) : List SummaryStatistic :=
  sortSlice
    (fun i j => if descending then !(summaryFieldLess field i j) else summaryFieldLess field i j)
    snapshot

/-- The comparator of `GetLossOnlyGroupedByIspSorted` (fields `rtt`, `sent`,
`recv`, default `PacketLoss`). -/
def lossFieldLess (field : String) (a b : SummaryStatistic) : Bool :=
  if field = "rtt" then decide (a.AvgRtt < b.AvgRtt)
  else if field = "sent" then decide (a.TotalSent < b.TotalSent)
  else if field = "recv" then decide (a.TotalRecv < b.TotalRecv)
  else decide (a.PacketLoss < b.PacketLoss)

/-- The non-strict order each loss-only key induces. -/
def lossFieldLe (field : String) (a b : SummaryStatistic) : Prop :=
  if field = "rtt" then a.AvgRtt ≤ b.AvgRtt
  else if field = "sent" then a.TotalSent ≤ b.TotalSent
  else if field = "recv" then a.TotalRecv ≤ b.TotalRecv
  else a.PacketLoss ≤ b.PacketLoss

/-- `GetLossOnlyGroupedByIspSorted`: filter the given summary sequence to
records with positive loss, then `sort.Slice` by the chosen field. -/
def GetLossOnlyGroupedByIspSorted (sum : List SummaryStatistic) (field : String)
    (descending : Bool) : List SummaryStatistic :=
  let lossOnly := sum.filter (fun v => decide (0 < v.PacketLoss))
  sortSlice
    (fun i j => if descending then !(lossFieldLess field i j) else lossFieldLess field i j)
    lossOnly

/-- `ProvinceConfig`. -/
structure ProvinceConfig where
  IPv4 : List String
deriving DecidableEq, Repr

/-- `DNSConfig`: the catalog, one region map per ISP (modelled as association
lists of region names). -/
structure DNSConfig where
  Dx : List (String × ProvinceConfig)
  Lt : List (String × ProvinceConfig)
  Yd : List (String × ProvinceConfig)
deriving DecidableEq, Repr

/-- Key membership in one ISP's region map. -/
def hasRegion (l : List (String × ProvinceConfig)) (k : String) : Bool :=
  match l with
  | [] => false
  | (r, _) :: rest => if r = k then true else hasRegion rest k

/-- `isRegionExist`. -/
def isRegionExist (isp : String) (region : String) (dns : DNSConfig) : Bool :=
  if isp = "电信" then hasRegion dns.Dx region
  else if isp = "联通" then hasRegion dns.Lt region
  else if isp = "移动" then hasRegion dns.Yd region
  else if isp = "all" then
    hasRegion dns.Dx region || hasRegion dns.Lt region || hasRegion dns.Yd region
  else false

/-- The closed valid-ISP set of `DPing` (`validIsps` map). -/
def validIsp (isp : String) : Bool :=
  isp = "电信" || isp = "联通" || isp = "移动" || isp = "all"

/-- Outcome of the parameter-validation prologue of `DPing`: the values
actually used plus whether each fallback warning was logged. -/
structure ResolvedParams where
  ispVal : String
  regionVal : String
  ispWarned : Bool
  regionWarned : Bool
deriving DecidableEq, Repr

/-- The ISP/region validation prologue of `DPing`: an unknown ISP falls back
to `"all"` with a warning; then a region other than `"全国"` that
`isRegionExist` rejects for the (possibly defaulted) ISP falls back to
`"全国"` with a warning.  Both fallbacks are non-fatal: the function always
returns and the run continues with the resolved values. -/
def resolveParams (isp : String) (detection : String) (dns : DNSConfig) : ResolvedParams :=
  let ispWarned := !(validIsp isp)
  let ispVal := if validIsp isp then isp else "all"
  let regionWarned := decide (detection ≠ "全国") && !(isRegionExist ispVal detection dns)
  let regionVal :=
    if detection ≠ "全国" ∧ isRegionExist ispVal detection dns = false then "全国"
    else detection
  { ispVal := ispVal, regionVal := regionVal
    ispWarned := ispWarned, regionWarned := regionWarned }

/-- Specification-side definition (from the spec's words, for the refinement
claim C1): the running packet-received-weighted mean, folded by the spec's
incremental rule — first contributing sample gives mean `v`, afterwards
new mean `(m·W + v·w) / (W + w)` with `W` the accumulated weight. -/
def specAvgStep : Int × Int → Int × Int → Int × Int
  | (m, W), (v, w) => (if W = 0 then v else Int.tdiv (m * W + v * w) (W + w), W + w)

/-- Specification-side weighted mean of a list of `(value, weight)` samples. -/
def specWeightedAvg (samples : List (Int × Int)) : Int :=
  (samples.foldl specAvgStep (0, 0)).1

/-- Total packets sent over a list of samples. -/
def sumSent (samples : List PingStatistic) : Int :=
  (samples.map (fun p => p.Statistic.PacketsSent)).sum

/-- Total packets received over a list of samples. -/
def sumRecv (samples : List PingStatistic) : Int :=
  (samples.map (fun p => p.Statistic.PacketsRecv)).sum

/-! ### Association-list map lemmas -/

theorem lookupKey_setKey_self (l : List (String × SummaryStatistic)) (k : String)
    (v : SummaryStatistic) : lookupKey (setKey l k v) k = some v := by
  induction l with
  | nil => simp [setKey, lookupKey]
  | cons hd tl ih =>
    obtain ⟨k0, v0⟩ := hd
    by_cases h : k0 = k
    · simp [setKey, h, lookupKey]
    · simp [setKey, h, lookupKey, ih]

theorem lookupKey_setKey_other (l : List (String × SummaryStatistic)) (k k' : String)
    (v : SummaryStatistic) (h : k ≠ k') :
    lookupKey (setKey l k v) k' = lookupKey l k' := by
  induction l with
  | nil => simp [setKey, lookupKey, h]
  | cons hd tl ih =>
    obtain ⟨k0, v0⟩ := hd
    by_cases h0 : k0 = k
    · subst h0
      simp [setKey, lookupKey, h]
    · simp [setKey, h0, lookupKey, ih]

theorem lookupKey_setKey_cases (l : List (String × SummaryStatistic)) (key k : String)
    (v r : SummaryStatistic) (h : lookupKey (setKey l key v) k = some r) :
    (k = key ∧ r = v) ∨ lookupKey l k = some r := by
  by_cases hk : k = key
  · subst hk
    rw [lookupKey_setKey_self] at h
    exact Or.inl ⟨rfl, (Option.some_inj.mp h).symm⟩
  · rw [lookupKey_setKey_other l key k v (fun he => hk he.symm)] at h
    exact Or.inr h

/-! ### Component equations of the aggregate update -/

theorem updateSummary_TotalSent (r : SummaryStatistic) (p : PingStats) :
    (updateSummary r p).TotalSent = r.TotalSent + p.PacketsSent := rfl

theorem updateSummary_TotalRecv (r : SummaryStatistic) (p : PingStats) :
    (updateSummary r p).TotalRecv = r.TotalRecv + p.PacketsRecv := rfl

theorem updateSummary_AvgRtt (r : SummaryStatistic) (p : PingStats) :
    (updateSummary r p).AvgRtt =
      if 0 < r.TotalRecv + p.PacketsRecv then
        Int.tdiv (r.AvgRtt * (r.TotalRecv + p.PacketsRecv - p.PacketsRecv)
          + p.AvgRtt * p.PacketsRecv) (r.TotalRecv + p.PacketsRecv)
      else r.AvgRtt := rfl

theorem updateSummary_MinRtt (r : SummaryStatistic) (p : PingStats) :
    (updateSummary r p).MinRtt =
      if 0 < p.MinRtt ∧ p.MinRtt < r.MinRtt then p.MinRtt else r.MinRtt := rfl

theorem updateSummary_MaxRtt (r : SummaryStatistic) (p : PingStats) :
    (updateSummary r p).MaxRtt =
      if r.MaxRtt < p.MaxRtt then p.MaxRtt else r.MaxRtt := rfl

theorem updateSummary_Region (r : SummaryStatistic) (p : PingStats) :
    (updateSummary r p).Region = r.Region := rfl

theorem updateSummary_Isp (r : SummaryStatistic) (p : PingStats) :
    (updateSummary r p).Isp = r.Isp := rfl

theorem updateSummary_PacketLoss (r : SummaryStatistic) (p : PingStats) :
    (updateSummary r p).PacketLoss = r.PacketLoss := rfl

theorem updateSummary_Duplicates (r : SummaryStatistic) (p : PingStats) :
    (updateSummary r p).PacketsRecvDuplicates = r.PacketsRecvDuplicates := rfl

/-! ### Sortedness of the embedded sort -/

theorem sorted_orderedInsert_of {α : Type} (less : α → α → Bool) (S : α → α → Prop)
    (htrans : ∀ a b c, S a b → S b c → S a c)
    (h1 : ∀ a b, less a b = true → S a b)
    (h2 : ∀ a b, less a b = false → S b a)
    (a : α) (l : List α) (hl : l.Sorted S) :
    (List.orderedInsert (fun x y => less x y = true) a l).Sorted S := by
  induction l with
  | nil => simp [List.orderedInsert]
  | cons b t ih =>
    rw [List.sorted_cons] at hl
    obtain ⟨hb, ht⟩ := hl
    by_cases hab : less a b = true
    · rw [List.orderedInsert, if_pos hab, List.sorted_cons]
      refine ⟨?_, ?_⟩
      · intro x hx
        rcases List.mem_cons.mp hx with hxb | hxt
        · exact hxb ▸ h1 a b hab
        · exact htrans a b x (h1 a b hab) (hb x hxt)
      · rw [List.sorted_cons]
        exact ⟨hb, ht⟩
    · rw [List.orderedInsert, if_neg hab, List.sorted_cons]
      refine ⟨?_, ih ht⟩
      intro x hx
      rcases (List.mem_orderedInsert _).mp hx with hxa | hxt
      · exact hxa ▸ h2 a b (Bool.eq_false_iff.mpr hab)
      · exact hb x hxt

theorem sorted_sortSlice {α : Type} (less : α → α → Bool) (S : α → α → Prop)
    (htrans : ∀ a b c, S a b → S b c → S a c)
    (h1 : ∀ a b, less a b = true → S a b)
    (h2 : ∀ a b, less a b = false → S b a)
    (l : List α) : (sortSlice less l).Sorted S := by
  induction l with
  | nil => simp [sortSlice, List.insertionSort]
  | cons a t ih =>
    rw [sortSlice, List.insertionSort]
    exact sorted_orderedInsert_of less S htrans h1 h2 a _ ih

theorem perm_sortSlice {α : Type} (less : α → α → Bool) (l : List α) :
    (sortSlice less l).Perm l :=
  List.perm_insertionSort _ l

/-! ### The field comparators induce total preorders -/

theorem summaryFieldLe_trans (field : String) (a b c : SummaryStatistic)
    (hab : summaryFieldLe field a b) (hbc : summaryFieldLe field b c) :
    summaryFieldLe field a c := by
  unfold summaryFieldLe at hab hbc ⊢
  split_ifs at hab hbc ⊢ <;> exact le_trans hab hbc

theorem summaryFieldLess_le (field : String) (a b : SummaryStatistic)
    (h : summaryFieldLess field a b = true) : summaryFieldLe field a b := by
  unfold summaryFieldLess at h
  unfold summaryFieldLe
  split_ifs at h ⊢ <;> simp at h <;> exact h.le

theorem summaryFieldLess_ge (field : String) (a b : SummaryStatistic)
    (h : summaryFieldLess field a b = false) : summaryFieldLe field b a := by
  unfold summaryFieldLess at h
  unfold summaryFieldLe
  split_ifs at h ⊢ <;> simp at h <;> exact h

theorem lossFieldLe_trans (field : String) (a b c : SummaryStatistic)
    (hab : lossFieldLe field a b) (hbc : lossFieldLe field b c) :
    lossFieldLe field a c := by
  unfold lossFieldLe at hab hbc ⊢
  split_ifs at hab hbc ⊢ <;> exact le_trans hab hbc

theorem lossFieldLess_le (field : String) (a b : SummaryStatistic)
    (h : lossFieldLess field a b = true) : lossFieldLe field a b := by
  unfold lossFieldLess at h
  unfold lossFieldLe
  split_ifs at h ⊢ <;> simp at h <;> exact h.le

theorem lossFieldLess_ge (field : String) (a b : SummaryStatistic)
    (h : lossFieldLess field a b = false) : lossFieldLe field b a := by
  unfold lossFieldLess at h
  unfold lossFieldLe
  split_ifs at h ⊢ <;> simp at h <;> exact h

/-! ### The per-destination trace of `Add` -/

/-- What one `Add` does to the slot of its own destination: create the record
if absent, then apply the aggregate update. -/
def recStep (o : Option SummaryStatistic) (p : PingStatistic) : Option SummaryStatistic :=
  some (updateSummary
    (match o with
     | none => freshSummary p
     | some v => v) p.Statistic)

theorem lookupKey_Add_self (s : PingStatsStore) (p : PingStatistic) :
    lookupKey (s.Add p).summaryData p.DecIp
      = recStep (lookupKey s.summaryData p.DecIp) p := by
  simp only [PingStatsStore.Add, recStep]
  exact lookupKey_setKey_self s.summaryData p.DecIp _

theorem lookupKey_Add_other (s : PingStatsStore) (p : PingStatistic) (k : String)
    (h : p.DecIp ≠ k) :
    lookupKey (s.Add p).summaryData k = lookupKey s.summaryData k := by
  simp only [PingStatsStore.Add]
  exact lookupKey_setKey_other s.summaryData p.DecIp k _ h

theorem lookupKey_foldl_Add (samples : List PingStatistic) (d : String)
    (hd : ∀ p ∈ samples, p.DecIp = d) (s : PingStatsStore) :
    lookupKey ((samples.foldl PingStatsStore.Add s).summaryData) d
      = samples.foldl recStep (lookupKey s.summaryData d) := by
  induction samples generalizing s with
  | nil => rfl
  | cons p t ih =>
    have hpd : p.DecIp = d := hd p (List.mem_cons_self p t)
    have ht : ∀ q ∈ t, q.DecIp = d := fun q hq => hd q (List.mem_cons_of_mem p hq)
    simp only [List.foldl_cons]
    rw [ih ht, ← hpd, lookupKey_Add_self]

theorem foldl_recStep_some (t : List PingStatistic) (r : SummaryStatistic) :
    t.foldl recStep (some r)
      = some (t.foldl (fun acc q => updateSummary acc q.Statistic) r) := by
  induction t generalizing r with
  | nil => rfl
  | cons q u ih => simp only [List.foldl_cons, recStep, ih]

/-! ### The running weighted average of `Add` matches the spec's rule -/

theorem updateSummary_avgRtt_spec (r : SummaryStatistic) (p : PingStats)
    (hw : 0 < p.PacketsRecv) (hr : 0 ≤ r.TotalRecv) :
    (updateSummary r p).AvgRtt
      = (specAvgStep (r.AvgRtt, r.TotalRecv) (p.AvgRtt, p.PacketsRecv)).1 := by
  rw [updateSummary_AvgRtt]
  have hpos : 0 < r.TotalRecv + p.PacketsRecv := by omega
  rw [if_pos hpos]
  simp only [specAvgStep]
  by_cases h0 : r.TotalRecv = 0
  · rw [if_pos h0, h0]
    have : (0 : Int) + p.PacketsRecv - p.PacketsRecv = 0 := by omega
    rw [this]
    simp only [mul_zero, zero_add]
    exact Int.mul_tdiv_cancel p.AvgRtt (by omega)
  · rw [if_neg h0]
    have hW : r.TotalRecv + p.PacketsRecv - p.PacketsRecv = r.TotalRecv := by omega
    rw [hW]

theorem foldl_updateSummary_totals (samples : List PingStatistic) (r : SummaryStatistic)
    (hw : ∀ p ∈ samples, 0 < p.Statistic.PacketsRecv) (hr : 0 ≤ r.TotalRecv) :
    (samples.foldl (fun acc p => updateSummary acc p.Statistic) r).TotalSent
        = r.TotalSent + sumSent samples
    ∧ (samples.foldl (fun acc p => updateSummary acc p.Statistic) r).TotalRecv
        = r.TotalRecv + sumRecv samples
    ∧ (samples.foldl (fun acc p => updateSummary acc p.Statistic) r).AvgRtt
        = ((samples.map fun p => (p.Statistic.AvgRtt, p.Statistic.PacketsRecv)).foldl
            specAvgStep (r.AvgRtt, r.TotalRecv)).1 := by
  induction samples generalizing r with
  | nil => exact ⟨by simp [sumSent], by simp [sumRecv], rfl⟩
  | cons p t ih =>
    have hwp : 0 < p.Statistic.PacketsRecv := hw p (List.mem_cons_self p t)
    have hwt : ∀ q ∈ t, 0 < q.Statistic.PacketsRecv :=
      fun q hq => hw q (List.mem_cons_of_mem p hq)
    have hr1 : 0 ≤ (updateSummary r p.Statistic).TotalRecv := by
      rw [updateSummary_TotalRecv]; omega
    obtain ⟨hs, hv, ha⟩ := ih (updateSummary r p.Statistic) hwt hr1
    refine ⟨?_, ?_, ?_⟩
    · rw [List.foldl_cons, hs, updateSummary_TotalSent]
      simp [sumSent]
      ring
    · rw [List.foldl_cons, hv, updateSummary_TotalRecv]
      simp [sumRecv]
      ring
    · rw [List.foldl_cons, ha, List.map_cons, List.foldl_cons]
      have hstep : specAvgStep (r.AvgRtt, r.TotalRecv) (p.Statistic.AvgRtt, p.Statistic.PacketsRecv)
          = ((updateSummary r p.Statistic).AvgRtt, (updateSummary r p.Statistic).TotalRecv) := by
        rw [updateSummary_avgRtt_spec r p.Statistic hwp hr, updateSummary_TotalRecv]
        rfl
      rw [hstep]

/-! ### The recv-bounded-by-sent store invariant -/

/-- Every record currently in the store has received at most as many packets
as it sent. -/
def storeRecvLeSent (s : PingStatsStore) : Prop :=
  ∀ k r, lookupKey s.summaryData k = some r → r.TotalRecv ≤ r.TotalSent

theorem Add_preserves_recvLeSent (s : PingStatsStore) (p : PingStatistic)
    (hp : p.Statistic.PacketsRecv ≤ p.Statistic.PacketsSent)
    (hs : storeRecvLeSent s) : storeRecvLeSent (s.Add p) := by
  intro k r h
  simp only [PingStatsStore.Add] at h
  rcases lookupKey_setKey_cases _ _ _ _ _ h with ⟨hk, hr⟩ | hold
  · subst hr
    rw [updateSummary_TotalRecv, updateSummary_TotalSent]
    cases hb : lookupKey s.summaryData p.DecIp with
    | none =>
        dsimp only [freshSummary]
        omega
    | some v =>
        dsimp only
        have := hs p.DecIp v hb
        omega
  · exact hs k r hold

theorem foldl_Add_preserves_recvLeSent (samples : List PingStatistic)
    (hp : ∀ p ∈ samples, p.Statistic.PacketsRecv ≤ p.Statistic.PacketsSent)
    (s : PingStatsStore) (hs : storeRecvLeSent s) :
    storeRecvLeSent (samples.foldl PingStatsStore.Add s) := by
  induction samples generalizing s with
  | nil => exact hs
  | cons p t ih =>
    have hpp := hp p (List.mem_cons_self p t)
    have hpt : ∀ q ∈ t, q.Statistic.PacketsRecv ≤ q.Statistic.PacketsSent :=
      fun q hq => hp q (List.mem_cons_of_mem p hq)
    exact ih hpt (s.Add p) (Add_preserves_recvLeSent s p hpp hs)

/-! ### Monotonicity of the RTT extremes -/

theorem updateSummary_minRtt_le (r : SummaryStatistic) (p : PingStats) :
    (updateSummary r p).MinRtt ≤ r.MinRtt := by
  rw [updateSummary_MinRtt]
  split_ifs with h
  · exact le_of_lt h.2
  · exact le_refl _

theorem updateSummary_maxRtt_ge (r : SummaryStatistic) (p : PingStats) :
    r.MaxRtt ≤ (updateSummary r p).MaxRtt := by
  rw [updateSummary_MaxRtt]
  split_ifs with h
  · exact le_of_lt h
  · exact le_refl _

theorem foldl_updateSummary_minRtt_le (ps : List PingStats) (r : SummaryStatistic) :
    (ps.foldl updateSummary r).MinRtt ≤ r.MinRtt := by
  induction ps generalizing r with
  | nil => exact le_refl _
  | cons p t ih =>
    exact le_trans (ih (updateSummary r p)) (updateSummary_minRtt_le r p)

theorem foldl_updateSummary_maxRtt_ge (ps : List PingStats) (r : SummaryStatistic) :
    r.MaxRtt ≤ (ps.foldl updateSummary r).MaxRtt := by
  induction ps generalizing r with
  | nil => exact le_refl _
  | cons p t ih =>
    exact le_trans (updateSummary_maxRtt_ge r p) (ih (updateSummary r p))

/-! ### Auxiliary component equalities -/

theorem updateSummary_minRtt_eq (r : SummaryStatistic) (p : PingStats) :
    (updateSummary r p).MinRtt
      = if 0 < p.MinRtt then min r.MinRtt p.MinRtt else r.MinRtt := by
  rw [updateSummary_MinRtt]
  split_ifs with h1 h2 h2
  · exact (min_eq_right (le_of_lt h1.2)).symm
  · exact absurd h1.1 h2
  · push_neg at h1
    exact (min_eq_left (h1 h2)).symm
  · rfl

theorem sumSent_cons (p : PingStatistic) (t : List PingStatistic) :
    sumSent (p :: t) = p.Statistic.PacketsSent + sumSent t := by
  simp [sumSent]

theorem sumRecv_cons (p : PingStatistic) (t : List PingStatistic) :
    sumRecv (p :: t) = p.Statistic.PacketsRecv + sumRecv t := by
  simp [sumRecv]

/-! ### Concrete sample data for the witnesses -/

/-- First sample of the spec's scenario: 3 sent, 3 received, 10/30/20 ms. -/
def scenarioStat1 : PingStatistic :=
  { SrcIp := ""
    DecIp := "1.1.1.1"
    Region := "北京"
    Isp := "电信"
    Statistic :=
      { PacketsSent := 3, PacketsRecv := 3, PacketsRecvDuplicates := 0
        PacketLoss := 0, MinRtt := 10000000, MaxRtt := 30000000, AvgRtt := 20000000 } }

/-- Second sample of the spec's scenario: 3 sent, 2 received, 8/25/15 ms,
33.3% loss. -/
def scenarioStat2 : PingStatistic :=
  { SrcIp := ""
    DecIp := "1.1.1.1"
    Region := "北京"
    Isp := "电信"
    Statistic :=
      { PacketsSent := 3, PacketsRecv := 2, PacketsRecvDuplicates := 0
        PacketLoss := 333/10, MinRtt := 8000000, MaxRtt := 25000000, AvgRtt := 15000000 } }

/-- The aggregate record after adding `scenarioStat1` to a fresh store. -/
def firstAddRecord : SummaryStatistic :=
  updateSummary (freshSummary scenarioStat1) scenarioStat1.Statistic

/-- A store holding exactly the record for `scenarioStat1`. -/
def oneRecordStore : PingStatsStore :=
  (NewPingStatsStore 25).Add scenarioStat1

/-- A later result for the same destination tagged with a different region,
ISP, loss percentage and duplicate count. -/
def retaggedStat : PingStatistic :=
  { SrcIp := ""
    DecIp := "1.1.1.1"
    Region := "上海"
    Isp := "联通"
    Statistic :=
      { PacketsSent := 3, PacketsRecv := 1, PacketsRecvDuplicates := 2
        PacketLoss := 50, MinRtt := 9000000, MaxRtt := 26000000, AvgRtt := 12000000 } }

/-- A probe result with 100% loss. -/
def lostStat : PingStatistic :=
  { SrcIp := ""
    DecIp := "2.2.2.2"
    Region := "上海"
    Isp := "移动"
    Statistic :=
      { PacketsSent := 3, PacketsRecv := 0, PacketsRecvDuplicates := 0
        PacketLoss := 100, MinRtt := 0, MaxRtt := 0, AvgRtt := 0 } }

/-- A summary record with 10% loss (all other fields incidental). -/
def lossRecHigh : SummaryStatistic :=
  { DestIP := "9.9.9.9", Region := "北京", Isp := "电信"
    TotalSent := 3, TotalRecv := 2, MinRtt := 1000000, MaxRtt := 2000000
    AvgRtt := 1500000, MinRttAvg := 1000000, MaxRttAvg := 2000000
    PacketLoss := 10, PacketsRecvDuplicates := 0 }

/-- A summary record with 3% loss (all other fields incidental). -/
def lossRecLow : SummaryStatistic :=
  { DestIP := "8.8.8.8", Region := "上海", Isp := "联通"
    TotalSent := 3, TotalRecv := 3, MinRtt := 4000000, MaxRtt := 5000000
    AvgRtt := 4500000, MinRttAvg := 4000000, MaxRttAvg := 5000000
    PacketLoss := 3, PacketsRecvDuplicates := 1 }

/-- An empty target catalog. -/
def emptyDNS : DNSConfig := { Dx := [], Lt := [], Yd := [] }

/-! ### Claim C1 -/

/-- C1: over any sequence of `Add` calls for one destination whose samples all
have a positive received count, the final `avgRtt` equals the
packet-received-weighted mean of the samples' average RTTs computed by the
spec's incremental rule, and `totalSent` / `totalRecv` are the sums of the
samples' counts. -/
theorem avgRtt_is_weighted_mean (samples : List PingStatistic) (d : String)
    (hd : ∀ p ∈ samples, p.DecIp = d)
    (hw : ∀ p ∈ samples, 0 < p.Statistic.PacketsRecv)
    (hne : samples ≠ []) :
    (lookupKey ((samples.foldl PingStatsStore.Add (NewPingStatsStore 25)).summaryData) d).map
        (fun r => (r.TotalSent, r.TotalRecv, r.AvgRtt))
      = some (sumSent samples, sumRecv samples,
          specWeightedAvg (samples.map fun p => (p.Statistic.AvgRtt, p.Statistic.PacketsRecv))) := by
  obtain ⟨p, t, rfl⟩ := List.exists_cons_of_ne_nil hne
  rw [lookupKey_foldl_Add _ d hd]
  have h0 : lookupKey (NewPingStatsStore 25).summaryData d = none := rfl
  rw [h0, List.foldl_cons]
  have hstep : recStep none p = some (updateSummary (freshSummary p) p.Statistic) := rfl
  rw [hstep, foldl_recStep_some]
  have hfold : t.foldl (fun acc q => updateSummary acc q.Statistic)
      (updateSummary (freshSummary p) p.Statistic)
      = (p :: t).foldl (fun acc q => updateSummary acc q.Statistic) (freshSummary p) := rfl
  rw [hfold]
  obtain ⟨hs, hv, ha⟩ := foldl_updateSummary_totals (p :: t) (freshSummary p) hw (by exact le_refl 0)
  simp only [Option.map_some']
  congr 1
  simp only [Prod.mk.injEq]
  have e1 : (freshSummary p).TotalSent = 0 := rfl
  have e2 : (freshSummary p).TotalRecv = 0 := rfl
  have e3 : (freshSummary p).AvgRtt = 0 := rfl
  refine ⟨?_, ?_, ?_⟩
  · rw [hs, e1, zero_add]
  · rw [hv, e2, zero_add]
  · rw [ha, e2, e3, specWeightedAvg]

/-- Witness for C1: the spec's scenario — 3 received at 20 ms then 2 received
at 15 ms for destination 1.1.1.1 yields 6 sent, 5 received and an 18 ms
average. -/
theorem avgRtt_is_weighted_mean_witness :
    (lookupKey (([scenarioStat1, scenarioStat2].foldl PingStatsStore.Add
        (NewPingStatsStore 25)).summaryData) "1.1.1.1").map
        (fun r => (r.TotalSent, r.TotalRecv, r.AvgRtt))
      = some (6, 5, 18000000) := by
  have h := avgRtt_is_weighted_mean [scenarioStat1, scenarioStat2] "1.1.1.1"
    (by decide) (by decide) (by decide)
  exact h.trans (by decide)

/-! ### Claim C2 -/

/-- C2: starting from a fresh store, if every added sample has
`PacketsRecv ≤ PacketsSent`, then after any sequence of `Add` calls every
record in the store satisfies `totalRecv ≤ totalSent`. -/
theorem totalRecv_le_totalSent (samples : List PingStatistic)
    (hp : ∀ p ∈ samples, p.Statistic.PacketsRecv ≤ p.Statistic.PacketsSent)
    (maxRecent : Int) (k : String) (r : SummaryStatistic)
    (h : lookupKey ((samples.foldl PingStatsStore.Add
        (NewPingStatsStore maxRecent)).summaryData) k = some r) :
    r.TotalRecv ≤ r.TotalSent := by
  refine foldl_Add_preserves_recvLeSent samples hp (NewPingStatsStore maxRecent) ?_ k r h
  intro k0 r0 h0
  exact absurd h0 (by simp [NewPingStatsStore, lookupKey])

/-- Witness for C2: after adding the first scenario sample the stored record
has 3 received and 3 sent. -/
theorem totalRecv_le_totalSent_witness :
    lookupKey (([scenarioStat1].foldl PingStatsStore.Add
        (NewPingStatsStore 25)).summaryData) "1.1.1.1" = some firstAddRecord
    ∧ firstAddRecord.TotalRecv ≤ firstAddRecord.TotalSent :=
  ⟨by decide,
   totalRecv_le_totalSent [scenarioStat1] (by decide) 25 "1.1.1.1" firstAddRecord (by decide)⟩

/-! ### Claim C3 -/

/-- C3: a result with `lossPercent == 100` leaves the store completely
unchanged (no record is created or mutated, the recent history is untouched)
while the processed-progress counter is still incremented. -/
theorem loss100_skips_store (st : PingStatsStore) (n : Int) (p : PingStatistic)
    (h : p.Statistic.PacketLoss = 100) :
    handleStep (st, n) p = (st, n + 1) := by
  simp [handleStep, h]

/-- Witness for C3: a fully lost probe against a fresh store. -/
theorem loss100_skips_store_witness :
    handleStep (NewPingStatsStore 25, 0) lostStat = (NewPingStatsStore 25, 1) :=
  loss100_skips_store (NewPingStatsStore 25) 0 lostStat (by decide)

/-! ### Claim C5 -/

/-- C5: one aggregate update never increases `minRtt` and never decreases
`maxRtt` (hence across any sequence of updates `minRtt` is non-increasing and
`maxRtt` non-decreasing), and `minRtt` becomes `min(minRtt, sample.minRtt)`
exactly when the sample's `minRtt` is positive, staying unchanged when the
sample's `minRtt` is zero or negative. -/
theorem minRtt_maxRtt_monotone (r : SummaryStatistic) (p : PingStats) :
    (updateSummary r p).MinRtt ≤ r.MinRtt
    ∧ r.MaxRtt ≤ (updateSummary r p).MaxRtt
    ∧ (updateSummary r p).MinRtt
        = (if 0 < p.MinRtt then min r.MinRtt p.MinRtt else r.MinRtt)
    ∧ ∀ ps : List PingStats,
        (ps.foldl updateSummary r).MinRtt ≤ r.MinRtt
        ∧ r.MaxRtt ≤ (ps.foldl updateSummary r).MaxRtt :=
  ⟨updateSummary_minRtt_le r p,
   updateSummary_maxRtt_ge r p,
   updateSummary_minRtt_eq r p,
   fun ps => ⟨foldl_updateSummary_minRtt_le ps r, foldl_updateSummary_maxRtt_ge ps r⟩⟩

/-! ### Sortedness of the two views -/

theorem getLossOnly_sorted_asc (l : List SummaryStatistic) (field : String) :
    (GetLossOnlyGroupedByIspSorted l field false).Sorted (lossFieldLe field) := by
  unfold GetLossOnlyGroupedByIspSorted
  exact sorted_sortSlice _ (lossFieldLe field) (lossFieldLe_trans field)
    (fun a b h => lossFieldLess_le field a b (by simpa using h))
    (fun a b h => lossFieldLess_ge field a b (by simpa using h)) _

theorem getLossOnly_sorted_desc (l : List SummaryStatistic) (field : String) :
    (GetLossOnlyGroupedByIspSorted l field true).Sorted
      (fun a b => lossFieldLe field b a) := by
  unfold GetLossOnlyGroupedByIspSorted
  exact sorted_sortSlice _ (fun a b => lossFieldLe field b a)
    (fun a b c hab hbc => lossFieldLe_trans field c b a hbc hab)
    (fun a b h => lossFieldLess_ge field a b (by simpa using h))
    (fun a b h => lossFieldLess_le field a b (by simpa using h)) _

theorem getSummarySorted_sorted_asc (l : List SummaryStatistic) (field : String) :
    (GetSummarySorted l field false).Sorted (summaryFieldLe field) := by
  unfold GetSummarySorted
  exact sorted_sortSlice _ (summaryFieldLe field) (summaryFieldLe_trans field)
    (fun a b h => summaryFieldLess_le field a b (by simpa using h))
    (fun a b h => summaryFieldLess_ge field a b (by simpa using h)) _

theorem getSummarySorted_sorted_desc (l : List SummaryStatistic) (field : String) :
    (GetSummarySorted l field true).Sorted
      (fun a b => summaryFieldLe field b a) := by
  unfold GetSummarySorted
  exact sorted_sortSlice _ (fun a b => summaryFieldLe field b a)
    (fun a b c hab hbc => summaryFieldLe_trans field c b a hbc hab)
    (fun a b h => summaryFieldLess_ge field a b (by simpa using h))
    (fun a b h => summaryFieldLess_le field a b (by simpa using h)) _

/-! ### Claim C4 -/

/-- C4 counterexample: with two positive-loss records given in
descending-loss order and an ascending loss sort requested, the loss-only
view reorders them, so its output is not the order-preserving
`lossPercent > 0` subsequence of its input. -/
theorem lossOnly_reorders_input :
    GetLossOnlyGroupedByIspSorted [lossRecHigh, lossRecLow] "loss" false
      ≠ [lossRecHigh, lossRecLow].filter (fun v => decide (0 < v.PacketLoss)) := by
  decide

/-- C4 (amended): the loss-only view returns exactly the records of its input
with `lossPercent > 0` (as a multiset — the order-preserving filtered
subsequence up to permutation), re-sorted by the chosen field and direction
rather than left in input order. -/
theorem lossOnly_is_sorted_filter (l : List SummaryStatistic) (field : String)
    (descending : Bool) :
    (GetLossOnlyGroupedByIspSorted l field descending).Perm
        (l.filter (fun v => decide (0 < v.PacketLoss)))
    ∧ (GetLossOnlyGroupedByIspSorted l field descending).Sorted
        (cond descending (fun a b => lossFieldLe field b a) (lossFieldLe field)) := by
  constructor
  · unfold GetLossOnlyGroupedByIspSorted
    exact perm_sortSlice _ _
  · cases descending with
    | false => exact getLossOnly_sorted_asc l field
    | true => exact getLossOnly_sorted_desc l field

/-! ### Claim C6 -/

/-- C6: for a fixed sort field, the flat summary sorted descending holds the
same multiset of records as the one sorted ascending (over any two snapshots
of the same store contents), the ascending output is non-decreasing in the
key and the descending output non-increasing — i.e. the two outputs are
reverses of each other modulo the ordering of key-ties. -/
theorem sortedFlat_descending_reverses (l1 l2 : List SummaryStatistic)
    (field : String) (hperm : l1.Perm l2) :
    (GetSummarySorted l1 field false).Perm (GetSummarySorted l2 field true)
    ∧ (GetSummarySorted l1 field false).Sorted (summaryFieldLe field)
    ∧ (GetSummarySorted l2 field true).Sorted
        (fun a b => summaryFieldLe field b a) := by
  refine ⟨?_, getSummarySorted_sorted_asc l1 field, getSummarySorted_sorted_desc l2 field⟩
  have h1 : (GetSummarySorted l1 field false).Perm l1 := by
    unfold GetSummarySorted
    exact perm_sortSlice _ _
  have h2 : (GetSummarySorted l2 field true).Perm l2 := by
    unfold GetSummarySorted
    exact perm_sortSlice _ _
  exact (h1.trans hperm).trans h2.symm

/-- Witness for C6: both directions of the avgrtt-sorted flat view over a
concrete two-record snapshot. -/
theorem sortedFlat_descending_reverses_witness :
    (GetSummarySorted [lossRecHigh, lossRecLow] "avgrtt" false).Perm
        (GetSummarySorted [lossRecHigh, lossRecLow] "avgrtt" true)
    ∧ (GetSummarySorted [lossRecHigh, lossRecLow] "avgrtt" false).Sorted
        (summaryFieldLe "avgrtt")
    ∧ (GetSummarySorted [lossRecHigh, lossRecLow] "avgrtt" true).Sorted
        (fun a b => summaryFieldLe "avgrtt" b a) :=
  sortedFlat_descending_reverses [lossRecHigh, lossRecLow] [lossRecHigh, lossRecLow]
    "avgrtt" (List.Perm.refl _)

/-! ### Claim C7 -/

/-- C7: the aggregate record's `region` and `isp` are taken from the first
contributing result at record creation, and a later `Add` for the same
destination never overwrites them, even when the incoming result carries a
different region or ISP. -/
theorem region_isp_frozen (s : PingStatsStore) (p : PingStatistic) :
    (lookupKey s.summaryData p.DecIp = none →
      (lookupKey (s.Add p).summaryData p.DecIp).map (fun r => (r.Region, r.Isp))
        = some (p.Region, p.Isp))
    ∧ ∀ v, lookupKey s.summaryData p.DecIp = some v →
        (lookupKey (s.Add p).summaryData p.DecIp).map (fun r => (r.Region, r.Isp))
          = some (v.Region, v.Isp) := by
  constructor
  · intro h
    rw [lookupKey_Add_self, h]
    simp only [recStep, Option.map_some']
    rw [updateSummary_Region, updateSummary_Isp]
    rfl
  · intro v h
    rw [lookupKey_Add_self, h]
    simp only [recStep, Option.map_some']
    rw [updateSummary_Region, updateSummary_Isp]

/-- Witness for C7: a record created from a 北京/电信 result keeps that
region and ISP after a later result for the same address arrives tagged
上海/联通. -/
theorem region_isp_frozen_witness :
    (lookupKey (oneRecordStore.Add retaggedStat).summaryData "1.1.1.1").map
        (fun r => (r.Region, r.Isp)) = some ("北京", "电信") :=
  (region_isp_frozen oneRecordStore retaggedStat).2 firstAddRecord (by decide)

/-! ### Claim C8 -/

/-- C8: an ISP outside the closed valid set falls back to "all" with a
warning while a valid ISP is used unchanged; a region other than the
"全国" sentinel that the catalog does not contain for the (possibly
defaulted) ISP falls back to "全国" with a warning, while "全国" or a
catalogued region is used unchanged.  `resolveParams` is total, so the run
proceeds in every case. -/
theorem selector_fallback (dns : DNSConfig) (isp detection : String) :
    (validIsp isp = false →
        (resolveParams isp detection dns).ispVal = "all"
        ∧ (resolveParams isp detection dns).ispWarned = true)
    ∧ (validIsp isp = true →
        (resolveParams isp detection dns).ispVal = isp
        ∧ (resolveParams isp detection dns).ispWarned = false)
    ∧ (detection ≠ "全国" →
        isRegionExist (resolveParams isp detection dns).ispVal detection dns = false →
        (resolveParams isp detection dns).regionVal = "全国"
        ∧ (resolveParams isp detection dns).regionWarned = true)
    ∧ ((detection = "全国" ∨
          isRegionExist (resolveParams isp detection dns).ispVal detection dns = true) →
        (resolveParams isp detection dns).regionVal = detection
        ∧ (resolveParams isp detection dns).regionWarned = false) := by
  refine ⟨?_, ?_, ?_, ?_⟩
  · intro h
    simp [resolveParams, h]
  · intro h
    simp [resolveParams, h]
  · intro h1 h2
    simp only [resolveParams] at h2
    simp [resolveParams, h1, h2]
  · intro h
    rcases h with h | h
    · subst h
      simp [resolveParams]
    · simp only [resolveParams] at h
      simp [resolveParams, h]

/-- Witness for C8: requesting the valid ISP 电信 with the unknown region
火星 against an empty catalog keeps the ISP, falls back to 全国 and flags
the region warning. -/
theorem selector_fallback_witness :
    (resolveParams "电信" "火星" emptyDNS).ispVal = "电信"
    ∧ (resolveParams "电信" "火星" emptyDNS).regionVal = "全国"
    ∧ (resolveParams "电信" "火星" emptyDNS).regionWarned = true :=
  ⟨((selector_fallback emptyDNS "电信" "火星").2.1 (by decide)).1,
   ((selector_fallback emptyDNS "电信" "火星").2.2.1 (by decide) (by decide)).1,
   ((selector_fallback emptyDNS "电信" "火星").2.2.1 (by decide) (by decide)).2⟩

/-! ### Claim C10 -/

/-- C10: the aggregate record's `lossPercent` and `duplicateCount` are set
once at record creation from the first contributing result and no later
`Add` for the same destination ever changes them; both summary views only
return records of their snapshot, hence report those creation-time values. -/
theorem loss_duplicates_frozen (s : PingStatsStore) (p : PingStatistic) :
    (lookupKey s.summaryData p.DecIp = none →
      (lookupKey (s.Add p).summaryData p.DecIp).map
          (fun r => (r.PacketLoss, r.PacketsRecvDuplicates))
        = some (p.Statistic.PacketLoss, p.Statistic.PacketsRecvDuplicates))
    ∧ (∀ v, lookupKey s.summaryData p.DecIp = some v →
        (lookupKey (s.Add p).summaryData p.DecIp).map
            (fun r => (r.PacketLoss, r.PacketsRecvDuplicates))
          = some (v.PacketLoss, v.PacketsRecvDuplicates))
    ∧ (∀ (l : List SummaryStatistic) (field : String) (descending : Bool),
        ∀ r ∈ GetSummarySorted l field descending, r ∈ l)
    ∧ (∀ (l : List SummaryStatistic) (field : String) (descending : Bool),
        ∀ r ∈ GetLossOnlyGroupedByIspSorted l field descending, r ∈ l) := by
  refine ⟨?_, ?_, ?_, ?_⟩
  · intro h
    rw [lookupKey_Add_self, h]
    simp only [recStep, Option.map_some']
    rw [updateSummary_PacketLoss, updateSummary_Duplicates]
    rfl
  · intro v h
    rw [lookupKey_Add_self, h]
    simp only [recStep, Option.map_some']
    rw [updateSummary_PacketLoss, updateSummary_Duplicates]
  · intro l field descending r hr
    have hperm : (GetSummarySorted l field descending).Perm l := by
      unfold GetSummarySorted
      exact perm_sortSlice _ _
    exact hperm.subset hr
  · intro l field descending r hr
    have hperm : (GetLossOnlyGroupedByIspSorted l field descending).Perm
        (l.filter (fun v => decide (0 < v.PacketLoss))) := by
      unfold GetLossOnlyGroupedByIspSorted
      exact perm_sortSlice _ _
    exact List.mem_of_mem_filter (hperm.subset hr)

/-- Witness for C10: the record created with 0% loss and 0 duplicates keeps
those values after a later result with 50% loss and 2 duplicates is merged
for the same address. -/
theorem loss_duplicates_frozen_witness :
    (lookupKey (oneRecordStore.Add retaggedStat).summaryData "1.1.1.1").map
        (fun r => (r.PacketLoss, r.PacketsRecvDuplicates)) = some (0, 0) :=
  (loss_duplicates_frozen oneRecordStore retaggedStat).2.1 firstAddRecord (by decide)
